import Mathlib

set_option maxHeartbeats 1000000

/-!
Shallow embedding of the fcpeg grammar compiler front-end
(`src/impl/rust/fcpeg/src/block.rs`): the AST-to-rule translator, its
identifier resolution, string-escape decoding, loop-count lowering and
the final appeared-id validation, together with the diagnostic taxonomy
and its severities.

Rust `HashMap`s are embedded as association lists whose lookup takes the
first matching key and whose insert conses in front; Rust `usize` values
appearing here (loop bounds, positions) are embedded as `Nat` (the
translated inputs are small decimal literals far below `usize::MAX`).
Character positions never influence control flow in the translated code,
so `CharacterPosition` is embedded as a plain `Nat` tag.
-/

/-- Severity of a console diagnostic (rustnutlib `ConsoleLogKind` as used
by the `log!` macro inside `get_log`). -/
inductive ConsoleLogKind where
  | error
  | warning
  deriving DecidableEq

/-- Character position; `0` stands for `CharacterPosition::get_empty()`.
Positions are opaque tags in everything translated here. -/
abbrev CharacterPosition := Nat

/-- Error taxonomy of the translator, from `enum BlockParseError` in block.rs. -/
inductive BlockParseError where
  | unknown
  | blockAliasNotFound (pos : CharacterPosition) (blockAliasName : String)
  | attemptToAccessPrivateItem (pos : CharacterPosition) (itemId : String)
  | duplicatedBlockName (pos : CharacterPosition) (blockName : String)
  | duplicatedFileAliasName (fileAliasName : String)
  | duplicatedArgumentID (pos : CharacterPosition) (argId : String)
  | duplicatedRuleName (pos : CharacterPosition) (ruleName : String)
  | duplicatedStartCommand (pos : CharacterPosition)
  | internalError (msg : String)
  | invalidID (pos : CharacterPosition) (id : String)
  | invalidLoopCount (pos : CharacterPosition)
  | mainBlockNotDefined
  | namingRuleViolation (pos : CharacterPosition) (id : String)
  | noStartCommandInMainBlock
  | startCommandOutsideMainBlock (pos : CharacterPosition)
  | unknownEscapeSequenceCharacter (pos : CharacterPosition)
  deriving DecidableEq

/-- Errors of the syntax-parsing layer that block.rs also appends to the
console (`SyntaxParseError` variants used by the translator). The enum
itself lives in the crate's parser module, which is not under src/; the
three variants and their payloads are taken from their construction sites
in block.rs. -/
inductive SyntaxParseError where
  | internalError (msg : String)
  | invalidSyntaxTreeStructure (cause : String)
  | unknownRuleID (pos : CharacterPosition) (ruleId : String)
  deriving DecidableEq

/-- One appended console diagnostic: either a translator error or a
syntax-layer error. The console is embedded as a `List LogEntry` in
append order. -/
inductive LogEntry where
  | block (e : BlockParseError)
  | syn (e : SyntaxParseError)
  deriving DecidableEq

/-- Severity assigned by `impl ConsoleLogger for BlockParseError::get_log`
(block.rs lines 126-147): everything is `Error` except
`AttemptToAccessPrivateItem` and `NamingRuleViolation`, which are
`Warning`. Note that `DuplicatedArgumentID` is logged as `Error`. -/
def BlockParseError.logKind : BlockParseError → ConsoleLogKind
  | .attemptToAccessPrivateItem _ _ => .warning
  | .namingRuleViolation _ _ => .warning
  | _ => .error

/-- Modelled from the spec: severity of the syntax-layer diagnostics.
`SyntaxParseError::get_log` lives in the crate's parser module, missing
from src/; the spec's §7 taxonomy lists UnknownRuleID and InternalError
as Error, and no warning exists among these variants. -/
def SyntaxParseError.logKind : SyntaxParseError → ConsoleLogKind
  | _ => .error

/-- Severity of a console entry. -/
def LogEntry.kind : LogEntry → ConsoleLogKind
  | .block e => e.logKind
  | .syn e => e.logKind

/-- Lookup in an association list, first match wins (embeds
`HashMap::get` / `contains_key`). -/
def lookupAssoc (m : List (String × String)) (k : String) : Option String :=
  match m with
  | [] => none
  | (k2, v) :: rest => if k2 = k then some v else lookupAssoc rest k

/-- Insert into an association list (embeds `HashMap::insert`): the new
binding shadows any previous one. -/
def insertAssoc (m : List (String × String)) (k v : String) : List (String × String) :=
  (k, v) :: m

/-- Whether a string starts with `'_'` (embeds
`id_rule_name.starts_with("_")`). -/
def startsWithUnderscore (s : String) : Bool :=
  match s.data with
  | '_' :: _ => true
  | _ => false

/-- Split a list of characters at every `'.'` (embeds Rust
`str::split(".")`, which always yields at least one piece). -/
def splitCharsOnDot : List Char → List String
  | [] => [""]
  | c :: rest =>
      let r := splitCharsOnDot rest
      if c = '.' then "" :: r
      else
        match r with
        | [] => [String.mk [c]]
        | h :: t => String.mk (c :: h.data) :: t

/-- Split a string at every `'.'`. -/
def splitOnDot (s : String) : List String :=
  splitCharsOnDot s.data

/-- Parse a run of decimal digits (embeds `str::parse::<usize>`:
non-empty, digits only; the translated numerals are small, so overflow
is immaterial). -/
def parseNatAux : List Char → Nat → Option Nat
  | [], acc => some acc
  | c :: rest, acc =>
      if c.isDigit then parseNatAux rest (acc * 10 + (c.toNat - 48)) else none

/-- Parse a decimal string as in `str::parse::<usize>`. -/
def parseNatDigits (s : String) : Option Nat :=
  match s.data with
  | [] => none
  | _ => parseNatAux s.data 0

/-- Join strings with `'.'` (embeds `Vec::join(".")`). -/
def joinWithDot : List String → String
  | [] => ""
  | [s] => s
  | s :: rest => s ++ "." ++ joinWithDot rest

/-- Loop maximum: a number or infinity (`enum Infinitable` of the crate's
rule module; its two shapes are fixed by every use in block.rs). -/
inductive Infinitable where
  | normal (n : Nat)
  | infinite
  deriving DecidableEq

/-- Loop count (min, max) as carried by every rule element
(`RuleElementLoopCount` of the crate's rule module). -/
structure RuleElementLoopCount where
  min : Nat
  max : Infinitable
  deriving DecidableEq

/-- Modelled from the spec: `RuleElementLoopCount::get_single_loop` is in
the crate's rule module, missing from src/; per §4.4 an absent loop
qualifier yields (1,1). -/
def getSingleLoop : RuleElementLoopCount := ⟨1, Infinitable.normal 1⟩

/-- Modelled from the spec: `RuleElementLoopCount::from_symbol` is in the
crate's rule module, missing from src/; per §3 `?`→(0,1), `*`→(0,∞),
`+`→(1,∞). -/
def loopCountFromSymbol : String → RuleElementLoopCount
  | "?" => ⟨0, Infinitable.normal 1⟩
  | "*" => ⟨0, Infinitable.infinite⟩
  | "+" => ⟨1, Infinitable.infinite⟩
  | _ => ⟨1, Infinitable.normal 1⟩

/-- Lookahead qualifier (`RuleElementLookaheadKind`). -/
inductive RuleElementLookaheadKind where
  | none
  | positive
  | negative
  deriving DecidableEq

/-- Group kind (`RuleGroupKind`); spec §3 lists Sequence, Choice and
RandomOrder. -/
inductive RuleGroupKind where
  | choice
  | sequence
  | randomOrder
  deriving DecidableEq

/-- AST reflection style (`ASTReflectionStyle`). -/
inductive ASTReflectionStyle where
  | reflection (name : String)
  | noReflection
  | expansion
  deriving DecidableEq

/-- Modelled from the spec: `ASTReflectionStyle::from_config` is in the
crate's rule module, missing from src/; both call sites in block.rs
(absent reflection decoration, and a bare `#`) denote per §4.4 the
default non-reflection for sequence children. -/
def astStyleFromConfig (_a _b : Bool) (_name : String) : ASTReflectionStyle :=
  ASTReflectionStyle.noReflection

mutual

/-- Expression kind (`RuleExpressionKind`); Generics and Func own their
argument groups. -/
inductive RuleExpressionKind where
  | argID
  | charClass
  | id
  | string
  | wildcard
  | generics (args : List RuleGroup)
  | func (args : List RuleGroup)

/-- Leaf node of a rule body (`RuleExpression`). -/
inductive RuleExpression where
  | mk (pos : CharacterPosition) (kind : RuleExpressionKind) (value : String)
      (lookaheadKind : RuleElementLookaheadKind) (loopCount : RuleElementLoopCount)
      (astReflectionStyle : ASTReflectionStyle)

/-- Inner node of a rule body (`RuleGroup`). -/
inductive RuleGroup where
  | mk (kind : RuleGroupKind) (subElems : List RuleElement)
      (lookaheadKind : RuleElementLookaheadKind) (loopCount : RuleElementLoopCount)
      (astReflectionStyle : ASTReflectionStyle)

/-- Rule element: group or expression (`RuleElement`). -/
inductive RuleElement where
  | group (g : RuleGroup)
  | expression (e : RuleExpression)

end

/-- Group constructor `RuleGroup::new(kind)`: empty children plus the
default decorations (modelled from the spec's defaults: no lookahead,
single loop, default reflection). The translator overwrites all three
wherever a decoration is present, so only the kind and children matter
downstream. -/
def ruleGroupNew (kind : RuleGroupKind) : RuleGroup :=
  RuleGroup.mk kind [] RuleElementLookaheadKind.none getSingleLoop
    (ASTReflectionStyle.reflection "")

/-- Replace a group's children (`group.sub_elems = ...`). -/
def setSubElems : RuleGroup → List RuleElement → RuleGroup
  | RuleGroup.mk kind _ lk lc st, els => RuleGroup.mk kind els lk lc st

/-- Overwrite a group's three decorations, as done in `to_seq_elem` for
a `.Rule.Choice` body. -/
def setGroupDecors : RuleGroup → RuleElementLookaheadKind → RuleElementLoopCount →
    ASTReflectionStyle → RuleGroup
  | RuleGroup.mk kind els _ _ _, lk, lc, st => RuleGroup.mk kind els lk lc st

/-- Expression constructor `RuleExpression::new(pos, kind, value)` with
the default decorations (modelled as for `ruleGroupNew`). -/
def ruleExprNew (pos : CharacterPosition) (kind : RuleExpressionKind) (value : String) :
    RuleExpression :=
  RuleExpression.mk pos kind value RuleElementLookaheadKind.none getSingleLoop
    (ASTReflectionStyle.reflection "")

/-- Overwrite an expression's three decorations, as done in `to_seq_elem`
for a `.Rule.Expr` body. -/
def setExprDecors : RuleExpression → RuleElementLookaheadKind → RuleElementLoopCount →
    ASTReflectionStyle → RuleExpression
  | RuleExpression.mk pos kind value _ _ _, lk, lc, st =>
      RuleExpression.mk pos kind value lk lc st

/-- Kind of a group. -/
def RuleGroup.kind : RuleGroup → RuleGroupKind
  | RuleGroup.mk k _ _ _ _ => k

/-- Children of a group. -/
def RuleGroup.subElems : RuleGroup → List RuleElement
  | RuleGroup.mk _ els _ _ _ => els

/-- The list of primitive function names, `PRIM_FUNC_NAMES` in block.rs. -/
def primFuncNames : List String := ["JOIN"]

/-- PascalCase test `BlockParser::is_pascal_case` (block.rs lines
912-929). Rust `char::is_uppercase` is embedded as `Char.isUpper`;
identifiers come from the `SingleID` production `[a-zA-Z_][a-zA-Z0-9_]*`,
on which the two coincide. -/
def isPascalCase (id : String) : Bool :=
  match id.data with
  | [] => false
  | firstChar :: rest =>
    if firstChar ≠ '_' then
      firstChar.isUpper
    else
      match rest with
      | [] => false
      | secondChar :: _ => secondChar.isUpper

/-- The naming check performed on block names (`to_block_map`, lines
249-254) and rule names (`to_define_cmd`, lines 387-392): a
`NamingRuleViolation` entry is appended exactly when `is_pascal_case`
fails; translation continues either way. -/
def namingCheckLogs (pos : CharacterPosition) (name : String) : List LogEntry :=
  if !(isPascalCase name) then [LogEntry.block (.namingRuleViolation pos name)] else []

/-- Identifier resolution `BlockParser::to_rule_id` (block.rs lines
806-862). Returns the diagnostics appended to the console and the
resolved id (`none` embeds the `Err(())` abort). -/
def toRuleId (pos : CharacterPosition) (idTokens : List String)
    (blockAliasMap : List (String × String)) (fileAliasName blockName : String) :
    List LogEntry × Option String :=
  let resolved : List LogEntry × Option (String × String × String) :=
    match idTokens with
    | [idRuleName] =>
        ([], some (fileAliasName ++ "." ++ blockName ++ "." ++ idRuleName,
                   blockName, idRuleName))
    | [aliasName, ruleName] =>
        match lookupAssoc blockAliasMap aliasName with
        | some mappedBlockName =>
            ([], some (mappedBlockName ++ "." ++ ruleName, mappedBlockName, ruleName))
        | none =>
            ([LogEntry.block (.blockAliasNotFound pos aliasName)], none)
    | [idFileAliasName, idBlockName, idRuleName] =>
        ([], some (idFileAliasName ++ "." ++ idBlockName ++ "." ++ idRuleName,
                   idBlockName, idRuleName))
    | _ =>
        ([LogEntry.block (.internalError "invalid id expression")], none)
  match resolved with
  | (logs, none) => (logs, none)
  | (logs, some (newId, idBlockName, idRuleName)) =>
      if startsWithUnderscore idRuleName && blockName != idBlockName then
        (logs ++ [LogEntry.block (.attemptToAccessPrivateItem pos newId)], some newId)
      else
        (logs, some newId)

/-- Block commands (`enum BlockCommand`); only the shapes the claims
need are spelled out, with the same payloads as in the source. -/
inductive BlockCommand where
  | comment (pos : CharacterPosition) (value : String)
  | start (pos : CharacterPosition) (fileAliasName blockName ruleName : String)
  | use (pos : CharacterPosition) (fileAliasName blockName blockAliasName : String)
  deriving DecidableEq

/-- Use-command lowering `BlockParser::to_use_cmd` (block.rs lines
466-498). `rawId` is the joined chain id returned by `to_chain_id`;
`asId` is the `.Block.UseCmdBlockAlias` child's id when present. -/
def toUseCmd (selfFileAliasName : String) (rawId : String) (asId : Option String) :
    List LogEntry × Option BlockCommand :=
  let dividedRawId := splitOnDot rawId
  let faBa : List LogEntry × Option (String × String) :=
    match asId with
    | some aliasId => ([], some (dividedRawId.headD "", aliasId))
    | none =>
        match dividedRawId with
        | [b] => ([], some (selfFileAliasName, b))
        | [f, b2] => ([], some (f, b2))
        | _ => ([LogEntry.syn (.internalError "invalid chain ID length on use command")], none)
  match faBa with
  | (logs, none) => (logs, none)
  | (logs, some (fileAliasName, blockAliasId)) =>
      match dividedRawId with
      | [b] => (logs, some (BlockCommand.use 0 fileAliasName b blockAliasId))
      | [_, b2] => (logs, some (BlockCommand.use 0 fileAliasName b2 blockAliasId))
      | _ =>
          (logs ++ [LogEntry.syn (.internalError "invalid chain ID length on use command")],
           none)

/-- The alias-table update performed for a Use command in
`BlockParser::to_block_cmd` (block.rs lines 348-359): the block alias is
mapped to `<file-alias>.<block-name>`. -/
def useCmdInsertAlias (m : List (String × String)) : BlockCommand → List (String × String)
  | BlockCommand.use _ fileAliasName blockName blockAliasName =>
      insertAssoc m blockAliasName (fileAliasName ++ "." ++ blockName)
  | _ => m

/-- The alias-table binding a Use command records, as a pair. -/
def useCmdAliasEntry : BlockCommand → Option (String × String)
  | BlockCommand.use _ fileAliasName blockName blockAliasName =>
      some (blockAliasName, fileAliasName ++ "." ++ blockName)
  | _ => none

/-- The appeared-id validation at the end of `BlockParser::get_rule_map`
(block.rs lines 205-221): the loop over the appeared map reports every
id missing from the assembled catalog with an UnknownRuleID entry and
raises the `has_id_error` flag; it never stops at the first missing id.
`catalog` stands for the key set of `rule_map.rule_map`. -/
def checkAppearedIds : List (String × CharacterPosition) → List String → List LogEntry × Bool
  | [], _ => ([], false)
  | p :: rest, catalog =>
      let tail := checkAppearedIds rest catalog
      if catalog.contains p.1 then tail
      else (LogEntry.syn (.unknownRuleID p.2 p.1) :: tail.1, true)

/-- The tail of `get_rule_map` (block.rs lines 205-221): after all files
were translated, a start-rule id was resolved and the catalog assembled,
return the catalog iff no appeared id is missing. -/
def getRuleMapIdCheck (appeared : List (String × CharacterPosition)) (catalog : List String) :
    List LogEntry × Option (List String) :=
  let checked := checkAppearedIds appeared catalog
  (checked.1, if checked.2 then none else some catalog)

/-!
Concrete syntax trees. The crate's tree module is not under src/; the
two shapes below (inner node with reflection style and children, leaf
with reflection style and value) and the helper semantics are fixed by
every use in block.rs and by spec §4.2/§4.3. Elements dropped by the
runtime (`#`-marked) never reach the translator, so the trees handled
here carry the reflection styles the translator inspects.
-/

mutual

/-- Concrete syntax-tree node (`SyntaxNode`). -/
inductive SNode where
  | mk (style : ASTReflectionStyle) (children : List SElem)

/-- Concrete syntax-tree element (`SyntaxNodeElement`). -/
inductive SElem where
  | node (n : SNode)
  | leaf (style : ASTReflectionStyle) (value : String)

end

/-- Children of a node. -/
def SNode.children : SNode → List SElem
  | SNode.mk _ cs => cs

/-- Reflection style of a node. -/
def SNode.style : SNode → ASTReflectionStyle
  | SNode.mk st _ => st

/-- Whether an element's reflection style is `Reflection(_)`. -/
def SElem.isReflectable : SElem → Bool
  | SElem.node (SNode.mk (ASTReflectionStyle.reflection _) _) => true
  | SElem.leaf (ASTReflectionStyle.reflection _) _ => true
  | _ => false

/-- Modelled from the spec: tree helper `get_reflectable_children`
(crate's tree module, missing from src/) — the children whose style is
`Reflection(_)`. -/
def getReflectableChildren (n : SNode) : List SElem :=
  n.children.filter SElem.isReflectable

/-- Modelled from the spec: tree helper `get_node` — the element as a
node, failing on a leaf. -/
def SElem.getNode : SElem → Option SNode
  | SElem.node n => some n
  | _ => none

/-- Modelled from the spec: tree helper `get_child_at(i)` — the i-th
child element. -/
def getChildAt (n : SNode) (i : Nat) : Option SElem :=
  n.children.get? i

/-- Modelled from the spec: tree helper `get_node_child_at(i)` — the
i-th child, which must be a node. -/
def getNodeChildAt (n : SNode) (i : Nat) : Option SNode :=
  match n.children.get? i with
  | some (SElem.node m) => some m
  | _ => none

/-- Modelled from the spec: tree helper `get_leaf_child_at(i)` — the
i-th child, which must be a leaf; returns its value. -/
def getLeafChildAt (n : SNode) (i : Nat) : Option String :=
  match n.children.get? i with
  | some (SElem.leaf _ v) => some v
  | _ => none

/-- Modelled from the spec: tree helper `find_first_child_node(names)` —
the first child node whose reflection name is among `names`. -/
def findFirstChildNode (n : SNode) (names : List String) : Option SNode :=
  match n.children.findSome?
    (fun e =>
      match e with
      | SElem.node m =>
          match m.style with
          | ASTReflectionStyle.reflection nm => if names.contains nm then some m else none
          | _ => none
      | _ => none) with
  | some m => some m
  | none => none

/-- Modelled from the spec: tree helper `find_child_nodes(names)` — all
child nodes whose reflection name is among `names`. -/
def findChildNodes (n : SNode) (names : List String) : List SNode :=
  n.children.filterMap
    (fun e =>
      match e with
      | SElem.node m =>
          match m.style with
          | ASTReflectionStyle.reflection nm => if names.contains nm then some m else none
          | _ => none
      | _ => none)

/-- Modelled from the spec: tree helper `join_child_leaf_values` — the
concatenation of the node's direct leaf children values (the translator
only calls it on nodes whose payload is a flat run of leaves). -/
def joinChildLeafValues (n : SNode) : String :=
  n.children.foldl
    (fun s e =>
      match e with
      | SElem.leaf _ v => s ++ v
      | _ => s) ""

/-- Modelled from the spec: tree helper `get_position` — positions are
opaque here, every node reports the empty position. -/
def getPosition (_n : SNode) : CharacterPosition := 0

/-- The escape table inside `BlockParser::to_string_value` (block.rs
lines 872-885): the escaped character is mapped to its decoded text,
any other escaped character to `none`. -/
def escCharDecode (c : String) : Option String :=
  match c with
  | "\\" => some "\\"
  | "\"" => some "\""
  | "n" => some "\n"
  | "t" => some "\t"
  | "z" => some "\x00"
  | _ => none

/-- String-escape decoding `BlockParser::to_string_value` (block.rs
lines 864-900): child nodes are escape sequences whose first leaf child
is the escaped character, reflected leaves are plain text. The first
unknown escape appends one `UnknownEscapeSequenceCharacter` and aborts. -/
def toStringValueElems : List SElem → List LogEntry × Option String
  | [] => ([], some "")
  | SElem.node n :: rest =>
      match n.style with
      | ASTReflectionStyle.reflection _ =>
          match getLeafChildAt n 0 with
          | none =>
              ([LogEntry.syn (.invalidSyntaxTreeStructure "invalid operation")], none)
          | some c =>
              match escCharDecode c with
              | none =>
                  ([LogEntry.block (.unknownEscapeSequenceCharacter (getPosition n))], none)
              | some p =>
                  match toStringValueElems rest with
                  | (logs, none) => (logs, none)
                  | (logs, some s) => (logs, some (p ++ s))
      | _ => toStringValueElems rest
  | SElem.leaf st v :: rest =>
      match st with
      | ASTReflectionStyle.reflection _ =>
          match toStringValueElems rest with
          | (logs, none) => (logs, none)
          | (logs, some s) => (logs, some (v ++ s))
      | _ => toStringValueElems rest

/-- Entry point of `to_string_value` on a `.Rule.Str` node. -/
def toStringValue (strNode : SNode) : List LogEntry × Option String :=
  toStringValueElems strNode.children

/-- Lowering of the max slot of a `.Rule.Loop` range node, second half
of the `.Rule.Loop` handling in `to_seq_elem` (block.rs lines 559-577). -/
def loopRangeMax (node : SNode) (minNum : Nat) :
    List LogEntry × Option RuleElementLoopCount :=
  match getChildAt node 1 with
  | some (SElem.node maxNode) =>
      match parseNatDigits (joinChildLeafValues maxNode) with
      | some v => ([], some ⟨minNum, Infinitable.normal v⟩)
      | none => ([LogEntry.block (.invalidLoopCount 0)], none)
  | some (SElem.leaf _ _) => ([], some ⟨minNum, Infinitable.infinite⟩)
  | none => ([LogEntry.syn (.invalidSyntaxTreeStructure "invalid operation")], none)

/-- Lowering of a found `.Rule.Loop` node, from `to_seq_elem` (block.rs
lines 527-594): a range node `{min,max}` parses both slots, with an
explicit min of 0 (or an unparsable number) rejected as
`InvalidLoopCount`; a leaf is one of the symbols `?`, `*`, `+`. -/
def loopCountOfLoopNode (loopNode : SNode) : List LogEntry × Option RuleElementLoopCount :=
  match getChildAt loopNode 0 with
  | some (SElem.node node) =>
      match getChildAt node 0 with
      | some (SElem.node minNode) =>
          match parseNatDigits (joinChildLeafValues minNode) with
          | some v =>
              if v = 0 then ([LogEntry.block (.invalidLoopCount 0)], none)
              else loopRangeMax node v
          | none => ([LogEntry.block (.invalidLoopCount 0)], none)
      | some (SElem.leaf _ _) => loopRangeMax node 0
      | none => ([LogEntry.syn (.invalidSyntaxTreeStructure "invalid operation")], none)
  | some (SElem.leaf _ s) =>
      match s with
      | "?" | "*" | "+" => ([], some (loopCountFromSymbol s))
      | _ => ([LogEntry.syn (.invalidSyntaxTreeStructure "unknown lookahead kind")], none)
  | none => ([LogEntry.syn (.invalidSyntaxTreeStructure "invalid operation")], none)

/-- The whole loop-qualifier lowering for one `SeqElem` node: absent
`.Rule.Loop` child yields the single loop (1,1). -/
def loopCountOf (seqElemNode : SNode) : List LogEntry × Option RuleElementLoopCount :=
  match findFirstChildNode seqElemNode [".Rule.Loop"] with
  | some v => loopCountOfLoopNode v
  | none => ([], some getSingleLoop)

/-- The lookahead lowering for one `SeqElem` node (block.rs lines
509-524). -/
def lookaheadOf (seqElemNode : SNode) : List LogEntry × Option RuleElementLookaheadKind :=
  match findFirstChildNode seqElemNode [".Rule.Lookahead"] with
  | some v =>
      match getLeafChildAt v 0 with
      | some s =>
          match s with
          | "&" => ([], some RuleElementLookaheadKind.positive)
          | "!" => ([], some RuleElementLookaheadKind.negative)
          | _ => ([LogEntry.syn (.invalidSyntaxTreeStructure "unknown lookahead kind")], none)
      | none => ([LogEntry.syn (.invalidSyntaxTreeStructure "unknown lookahead kind")], none)
  | none => ([], some RuleElementLookaheadKind.none)

/-- The reflection-style lowering for one `SeqElem` node (block.rs lines
598-615): `##` is expansion, a named style reflects the joined name, a
bare `#` (no leaf child) or an absent style node falls back to the
configured default. -/
def styleOf (seqElemNode : SNode) : ASTReflectionStyle :=
  match findFirstChildNode seqElemNode [".Rule.ASTReflectionStyle"] with
  | some styleNode =>
      match getLeafChildAt styleNode 0 with
      | some s =>
          if s = "##" then ASTReflectionStyle.expansion
          else ASTReflectionStyle.reflection (joinChildLeafValues styleNode)
      | none => astStyleFromConfig false true ""
  | none => astStyleFromConfig false false ""

/-- Argument-id collection `BlockParser::to_define_cmd_arg_ids` (block.rs
lines 419-443): every `.Rule.ArgID` child is appended, a repeated id
additionally appends a `DuplicatedArgumentID` diagnostic; the function
never fails. -/
def toDefineCmdArgIdsGo : List SElem → List LogEntry → List String →
    List LogEntry × List String
  | [], logs, args => (logs, args)
  | e :: rest, logs, args =>
      match e with
      | SElem.node n =>
          if n.style = ASTReflectionStyle.reflection ".Rule.ArgID" then
            let newArg := joinChildLeafValues n
            let logs2 :=
              if args.contains newArg then
                logs ++ [LogEntry.block (.duplicatedArgumentID (getPosition n) newArg)]
              else logs
            toDefineCmdArgIdsGo rest logs2 (args ++ [newArg])
          else toDefineCmdArgIdsGo rest logs args
      | _ => toDefineCmdArgIdsGo rest logs args

/-- Entry point of `to_define_cmd_arg_ids` over a command node's
children. -/
def toDefineCmdArgIds (subElems : List SElem) : List LogEntry × List String :=
  toDefineCmdArgIdsGo subElems [] []

/-- Chain-id splitting `BlockParser::to_string_vec` (block.rs lines
796-804): the joined values of the reflectable children, each of which
must be a node. -/
def toStringVec (n : SNode) : List LogEntry × Option (List String) :=
  let rec go : List SElem → List LogEntry × Option (List String)
    | [] => ([], some [])
    | SElem.node m :: rest =>
        match go rest with
        | (logs, none) => (logs, none)
        | (logs, some vs) => (logs, some (joinChildLeafValues m :: vs))
    | SElem.leaf _ _ :: _ =>
        ([LogEntry.syn (.invalidSyntaxTreeStructure "invalid operation")], none)
  go (getReflectableChildren n)

/-- Translation context: the per-file, per-block fields of `BlockParser`
read by the element lowering. -/
structure TransCtx where
  fileAliasName : String
  blockName : String
  blockAliasMap : List (String × String)

/-- The shared appeared-identifier map (`appeared_block_ids`). -/
abbrev AppearedMap := List (String × CharacterPosition)

/-- Whether the appeared map already holds an id (`contains_key`). -/
def appearedContains (m : AppearedMap) (id : String) : Bool :=
  m.any (fun p => p.1 == id)

/-- Record an id in the appeared map unless already present (first
position wins), from `to_rule_expr_elem` (block.rs lines 742-744 and
761-763). -/
def appearedInsert (m : AppearedMap) (id : String) (pos : CharacterPosition) : AppearedMap :=
  if appearedContains m id then m else m ++ [(id, pos)]

/-!
The element lowering `to_seq_elem` / `to_rule_choice_elem` /
`to_rule_expr_elem` (block.rs lines 501-794) is mutually recursive over
the syntax tree; the embedding adds an explicit fuel argument that only
bounds the recursion depth, and every theorem below instantiates it
strictly above the depth of its input tree.
-/

mutual

/-- Sequence lowering `BlockParser::to_seq_elem` (block.rs lines
501-670): each reflectable `SeqElem` child node is lowered and the
results collected into a Sequence group. -/
def toSeqElem (fuel : Nat) (ctx : TransCtx) (appeared : AppearedMap) (seqNode : SNode)
    (genericsArgs : List String) : List LogEntry × AppearedMap × Option RuleElement :=
  match fuel with
  | 0 => ([], appeared, none)
  | fuel + 1 =>
      match toSeqElemChildren fuel ctx appeared (getReflectableChildren seqNode) genericsArgs with
      | (logs, ap, none) => (logs, ap, none)
      | (logs, ap, some children) =>
          (logs, ap,
           some (RuleElement.group (setSubElems (ruleGroupNew RuleGroupKind.sequence) children)))

/-- The per-child loop of `to_seq_elem` over the reflectable `SeqElem`
elements; the first error aborts. -/
def toSeqElemChildren (fuel : Nat) (ctx : TransCtx) (appeared : AppearedMap)
    (elems : List SElem) (genericsArgs : List String) :
    List LogEntry × AppearedMap × Option (List RuleElement) :=
  match fuel with
  | 0 => ([], appeared, none)
  | fuel + 1 =>
      match elems with
      | [] => ([], appeared, some [])
      | e :: rest =>
          match e.getNode with
          | none =>
              ([LogEntry.syn (.invalidSyntaxTreeStructure "invalid operation")], appeared, none)
          | some n =>
              match toOneSeqElem fuel ctx appeared n genericsArgs with
              | (logs, ap, none) => (logs, ap, none)
              | (logs, ap, some el) =>
                  match toSeqElemChildren fuel ctx ap rest genericsArgs with
                  | (logs2, ap2, none) => (logs ++ logs2, ap2, none)
                  | (logs2, ap2, some els) => (logs ++ logs2, ap2, some (el :: els))

/-- Lowering of one `SeqElem` node (the body of the loop in
`to_seq_elem`): collect lookahead, loop and reflection decorations, then
lower the `.Rule.Choice` or `.Rule.Expr` body and attach them. -/
def toOneSeqElem (fuel : Nat) (ctx : TransCtx) (appeared : AppearedMap) (n : SNode)
    (genericsArgs : List String) : List LogEntry × AppearedMap × Option RuleElement :=
  match fuel with
  | 0 => ([], appeared, none)
  | fuel + 1 =>
      match lookaheadOf n with
      | (logs1, none) => (logs1, appeared, none)
      | (logs1, some lk) =>
          match loopCountOf n with
          | (logs2, none) => (logs1 ++ logs2, appeared, none)
          | (logs2, some lc) =>
              let style := styleOf n
              match findFirstChildNode n [".Rule.Choice", ".Rule.Expr"] with
              | none =>
                  (logs1 ++ logs2 ++
                     [LogEntry.syn (.invalidSyntaxTreeStructure "invalid operation")],
                   appeared, none)
              | some cen =>
                  match cen.style with
                  | ASTReflectionStyle.reflection nm =>
                      if nm = ".Rule.Choice" then
                        match getNodeChildAt cen 0 with
                        | none =>
                            (logs1 ++ logs2 ++
                               [LogEntry.syn (.invalidSyntaxTreeStructure "invalid operation")],
                             appeared, none)
                        | some pureChoiceNode =>
                            match toRuleChoiceElem fuel ctx appeared pureChoiceNode genericsArgs with
                            | (logs3, ap, none) => (logs1 ++ logs2 ++ logs3, ap, none)
                            | (logs3, ap, some g) =>
                                (logs1 ++ logs2 ++ logs3, ap,
                                 some (RuleElement.group (setGroupDecors g lk lc style)))
                      else if nm = ".Rule.Expr" then
                        match toRuleExprElem fuel ctx appeared cen genericsArgs with
                        | (logs3, ap, none) => (logs1 ++ logs2 ++ logs3, ap, none)
                        | (logs3, ap, some ex) =>
                            (logs1 ++ logs2 ++ logs3, ap,
                             some (RuleElement.expression (setExprDecors ex lk lc style)))
                      else
                        (logs1 ++ logs2 ++
                           [LogEntry.syn (.invalidSyntaxTreeStructure ("invalid node name " ++ nm))],
                         appeared, none)
                  | _ =>
                      (logs1 ++ logs2 ++
                         [LogEntry.syn (.invalidSyntaxTreeStructure "invalid operation")],
                       appeared, none)

/-- Choice lowering `BlockParser::to_rule_choice_elem` (block.rs lines
673-705): every reflectable `.Rule.Seq` child is lowered into a child of
the group; a `:` or `,` separator leaf switches the group kind to
Choice; the group is wrapped in a Sequence root. -/
def toRuleChoiceElem (fuel : Nat) (ctx : TransCtx) (appeared : AppearedMap)
    (choiceNode : SNode) (genericsArgs : List String) :
    List LogEntry × AppearedMap × Option RuleGroup :=
  match fuel with
  | 0 => ([], appeared, none)
  | fuel + 1 =>
      match toChoiceChildren fuel ctx appeared (getReflectableChildren choiceNode)
          genericsArgs with
      | (logs, ap, none) => (logs, ap, none)
      | (logs, ap, some (children, sawSeparator)) =>
          let groupKind := if sawSeparator then RuleGroupKind.choice else RuleGroupKind.sequence
          let group := setSubElems (ruleGroupNew groupKind) children
          let tmpRootGroup :=
            setSubElems (ruleGroupNew RuleGroupKind.sequence) [RuleElement.group group]
          (logs, ap, some tmpRootGroup)

/-- The loop of `to_rule_choice_elem` over the choice node's reflectable
children: `.Rule.Seq` nodes are lowered, both `:` and `,` leaves set the
Choice kind, everything else is skipped. -/
def toChoiceChildren (fuel : Nat) (ctx : TransCtx) (appeared : AppearedMap)
    (elems : List SElem) (genericsArgs : List String) :
    List LogEntry × AppearedMap × Option (List RuleElement × Bool) :=
  match fuel with
  | 0 => ([], appeared, none)
  | fuel + 1 =>
      match elems with
      | [] => ([], appeared, some ([], false))
      | SElem.node m :: rest =>
          if m.style = ASTReflectionStyle.reflection ".Rule.Seq" then
            match toSeqElem fuel ctx appeared m genericsArgs with
            | (logs, ap, none) => (logs, ap, none)
            | (logs, ap, some child) =>
                match toChoiceChildren fuel ctx ap rest genericsArgs with
                | (logs2, ap2, none) => (logs ++ logs2, ap2, none)
                | (logs2, ap2, some (cs, b)) => (logs ++ logs2, ap2, some (child :: cs, b))
          else
            toChoiceChildren fuel ctx appeared rest genericsArgs
      | SElem.leaf _ v :: rest =>
          let sep := v == ":" || v == ","
          match toChoiceChildren fuel ctx appeared rest genericsArgs with
          | (logs2, ap2, none) => (logs2, ap2, none)
          | (logs2, ap2, some (cs, b)) => (logs2, ap2, some (cs, sep || b))

/-- Expression lowering `BlockParser::to_rule_expr_elem` (block.rs lines
707-794), dispatching on the inner node's reflection name. -/
def toRuleExprElem (fuel : Nat) (ctx : TransCtx) (appeared : AppearedMap)
    (exprNode : SNode) (genericsArgs : List String) :
    List LogEntry × AppearedMap × Option RuleExpression :=
  match fuel with
  | 0 => ([], appeared, none)
  | fuel + 1 =>
      match getNodeChildAt exprNode 0 with
      | none =>
          ([LogEntry.syn (.invalidSyntaxTreeStructure "invalid operation")], appeared, none)
      | some ecn =>
          match ecn.style with
          | ASTReflectionStyle.reflection nm =>
              if nm = ".Rule.ArgID" then
                ([], appeared,
                 some (ruleExprNew (getPosition ecn) RuleExpressionKind.argID
                   (joinChildLeafValues ecn)))
              else if nm = ".Rule.CharClass" then
                ([], appeared,
                 some (ruleExprNew (getPosition ecn) RuleExpressionKind.charClass
                   ("[" ++ joinChildLeafValues ecn ++ "]")))
              else if nm = ".Rule.Generics" ∨ nm = ".Rule.Func" then
                match toArgGroups fuel ctx appeared (findChildNodes ecn [".Rule.InstantPureChoice"])
                    genericsArgs with
                | (logs, ap, none) => (logs, ap, none)
                | (logs, ap, some args) =>
                    match getNodeChildAt ecn 0 with
                    | none =>
                        (logs ++ [LogEntry.syn (.invalidSyntaxTreeStructure "invalid operation")],
                         ap, none)
                    | some chainIdNode =>
                        match getNodeChildAt chainIdNode 0 with
                        | none =>
                            (logs ++
                               [LogEntry.syn (.invalidSyntaxTreeStructure "invalid operation")],
                             ap, none)
                        | some parentNode =>
                            let pos := getPosition parentNode
                            let kind :=
                              if nm = ".Rule.Generics" then RuleExpressionKind.generics args
                              else RuleExpressionKind.func args
                            match toStringVec chainIdNode with
                            | (logs2, none) => (logs ++ logs2, ap, none)
                            | (logs2, some rawId) =>
                                let joinedRawId := joinWithDot rawId
                                if nm = ".Rule.Func" ∧ primFuncNames.contains joinedRawId then
                                  (logs ++ logs2, ap, some (ruleExprNew pos kind joinedRawId))
                                else
                                  match toRuleId pos rawId ctx.blockAliasMap ctx.fileAliasName
                                      ctx.blockName with
                                  | (logs3, none) => (logs ++ logs2 ++ logs3, ap, none)
                                  | (logs3, some id) =>
                                      (logs ++ logs2 ++ logs3, appearedInsert ap id pos,
                                       some (ruleExprNew pos kind id))
              else if nm = ".Rule.ID" then
                match getNodeChildAt ecn 0 with
                | none =>
                    ([LogEntry.syn (.invalidSyntaxTreeStructure "invalid operation")],
                     appeared, none)
                | some chainIdNode =>
                    match getNodeChildAt chainIdNode 0 with
                    | none =>
                        ([LogEntry.syn (.invalidSyntaxTreeStructure "invalid operation")],
                         appeared, none)
                    | some parentNode =>
                        let pos := getPosition parentNode
                        match toStringVec chainIdNode with
                        | (logs, none) => (logs, appeared, none)
                        | (logs, some rawId) =>
                            match toRuleId pos rawId ctx.blockAliasMap ctx.fileAliasName
                                ctx.blockName with
                            | (logs2, none) => (logs ++ logs2, appeared, none)
                            | (logs2, some id) =>
                                (logs ++ logs2, appearedInsert appeared id pos,
                                 some (ruleExprNew pos RuleExpressionKind.id id))
              else if nm = ".Rule.Str" then
                match toStringValue ecn with
                | (logs, none) => (logs, appeared, none)
                | (logs, some s) =>
                    (logs, appeared, some (ruleExprNew 0 RuleExpressionKind.string s))
              else if nm = ".Rule.Wildcard" then
                ([], appeared,
                 some (ruleExprNew (getPosition ecn) RuleExpressionKind.wildcard "."))
              else
                ([LogEntry.syn (.internalError ("unknown expression name " ++ nm))],
                 appeared, none)
          | _ => ([LogEntry.syn (.internalError "invalid operation")], appeared, none)

/-- Lowering of the `.Rule.InstantPureChoice` argument nodes of a
Generics or Func expression, each as a full group. -/
def toArgGroups (fuel : Nat) (ctx : TransCtx) (appeared : AppearedMap)
    (nodes : List SNode) (genericsArgs : List String) :
    List LogEntry × AppearedMap × Option (List RuleGroup) :=
  match fuel with
  | 0 => ([], appeared, none)
  | fuel + 1 =>
      match nodes with
      | [] => ([], appeared, some [])
      | nd :: rest =>
          match toRuleChoiceElem fuel ctx appeared nd genericsArgs with
          | (logs, ap, none) => (logs, ap, none)
          | (logs, ap, some g) =>
              match toArgGroups fuel ctx ap rest genericsArgs with
              | (logs2, ap2, none) => (logs ++ logs2, ap2, none)
              | (logs2, ap2, some gs) => (logs ++ logs2, ap2, some (g :: gs))

end

/-!
Concrete syntax-tree fragments, shaped as the runtime parser delivers
them to the translator (delimiters marked `#` in the bootstrap grammar
are dropped; expansion nodes are spliced into their parents).
-/

/-- A `.Rule.Str` node holding the single piece `s`. -/
def strNode (s : String) : SNode :=
  SNode.mk (ASTReflectionStyle.reflection ".Rule.Str")
    [SElem.leaf (ASTReflectionStyle.reflection "") s]

/-- A `.Rule.Expr` node wrapping a string literal. -/
def strExprNode (s : String) : SNode :=
  SNode.mk (ASTReflectionStyle.reflection ".Rule.Expr") [SElem.node (strNode s)]

/-- A `.Rule.SeqElem` node whose body is the string literal `s`, with no
decorations. -/
def strSeqElemNode (s : String) : SNode :=
  SNode.mk (ASTReflectionStyle.reflection ".Rule.SeqElem") [SElem.node (strExprNode s)]

/-- A `.Rule.Seq` node with the single element `"s"`. -/
def strSeqNode (s : String) : SNode :=
  SNode.mk (ASTReflectionStyle.reflection ".Rule.Seq") [SElem.node (strSeqElemNode s)]

/-- A separator leaf of a `.Rule.PureChoice` node (`:` or `,`). -/
def sepLeaf (v : String) : SElem :=
  SElem.leaf (ASTReflectionStyle.reflection "") v

/-- The `.Rule.PureChoice` node of `"a" : "b" , "c"` — alternatives
separated by BOTH `:` and `,` at the same nesting level. -/
def mixedPureChoiceNode : SNode :=
  SNode.mk (ASTReflectionStyle.reflection ".Rule.PureChoice")
    [SElem.node (strSeqNode "a"), sepLeaf ":",
     SElem.node (strSeqNode "b"), sepLeaf ",",
     SElem.node (strSeqNode "c")]

/-- A `.Rule.RandomOrder` node (the `^` decoration as the bootstrap
grammar parses it). -/
def randomOrderNode : SNode :=
  SNode.mk (ASTReflectionStyle.reflection ".Rule.RandomOrder") []

/-- A `.Rule.SeqElem` node whose body is the string literal `s` and that
carries a `.Rule.RandomOrder` decoration. -/
def strSeqElemNodeRandom (s : String) : SNode :=
  SNode.mk (ASTReflectionStyle.reflection ".Rule.SeqElem")
    [SElem.node (strExprNode s), SElem.node randomOrderNode]

/-- A `.Rule.Seq` node with the single random-order-decorated element. -/
def strSeqNodeRandom (s : String) : SNode :=
  SNode.mk (ASTReflectionStyle.reflection ".Rule.Seq")
    [SElem.node (strSeqElemNodeRandom s)]

/-- The translation context of the top-level file inside block `Main`
with an empty alias table. -/
def ctx0 : TransCtx := ⟨"", "Main", []⟩

/-- The group kind produced under the Sequence wrapper returned by
`to_rule_choice_elem`. -/
def innerGroupKind (r : Option RuleGroup) : Option RuleGroupKind :=
  match r with
  | some root =>
      match root.subElems with
      | [RuleElement.group g] => some g.kind
      | _ => none
  | none => none

/-- The number of alternatives under the Sequence wrapper returned by
`to_rule_choice_elem`. -/
def innerGroupSize (r : Option RuleGroup) : Option Nat :=
  match r with
  | some root =>
      match root.subElems with
      | [RuleElement.group g] => some g.subElems.length
      | _ => none
  | none => none

/-- The kind of the group inside a lowered `RuleElement`. -/
def elemGroupKind (r : Option RuleElement) : Option RuleGroupKind :=
  match r with
  | some (RuleElement.group g) => some g.kind
  | _ => none

/-- A `.Rule.Loop` node holding a `.Rule.LoopRange` with the given min
and max slots, as the bootstrap `LoopRange` production
`"{"# (Num : "")## ","# (Num : "")## "}"#` delivers it: each slot is a
`Num` node or an empty-string leaf. -/
def loopNodeOfSlots (minSlot maxSlot : SElem) : SNode :=
  SNode.mk (ASTReflectionStyle.reflection ".Rule.Loop")
    [SElem.node (SNode.mk (ASTReflectionStyle.reflection ".Rule.LoopRange")
      [minSlot, maxSlot])]

/-- A `.Rule.Num` slot holding the digit string `s`. -/
def numSlot (s : String) : SElem :=
  SElem.node (SNode.mk (ASTReflectionStyle.reflection ".Rule.Num")
    [SElem.leaf (ASTReflectionStyle.reflection "") s])

/-- An absent number slot (the empty-string leaf alternative). -/
def emptySlot : SElem :=
  SElem.leaf (ASTReflectionStyle.reflection "") ""

/-- A `.Rule.ArgID` node holding the id `v`. -/
def argIdNode (v : String) : SElem :=
  SElem.node (SNode.mk (ASTReflectionStyle.reflection ".Rule.ArgID")
    [SElem.leaf (ASTReflectionStyle.reflection "") v])

/-- The `.Rule.ArgID` values among a Define command's generic or function
parameter children, in order and with duplicates kept. -/
def argIdValues (elems : List SElem) : List String :=
  elems.filterMap
    (fun e =>
      match e with
      | SElem.node n =>
          if n.style = ASTReflectionStyle.reflection ".Rule.ArgID" then
            some (joinChildLeafValues n)
          else none
      | _ => none)

/-- The diagnostics `to_define_cmd_arg_ids` produces for a value list:
one `DuplicatedArgumentID` entry per occurrence whose value already
appeared earlier in the list. -/
def dupArgLogs (seen : List String) : List String → List LogEntry
  | [] => []
  | v :: rest =>
      (if seen.contains v then [LogEntry.block (.duplicatedArgumentID 0 v)] else []) ++
        dupArgLogs (seen ++ [v]) rest

/-- A piece of a string literal as the `Str` production delivers it:
either an escape sequence `\c` or a plain (non-escaped) piece. -/
inductive StrPiece where
  | esc (c : String)
  | plain (s : String)

/-- The tree element of a string-literal piece: an `EscSeq` node whose
first leaf child is the escaped character, or a reflected plain leaf. -/
def strPieceElem : StrPiece → SElem
  | StrPiece.esc c =>
      SElem.node (SNode.mk (ASTReflectionStyle.reflection ".Rule.EscSeq")
        [SElem.leaf (ASTReflectionStyle.reflection "") c])
  | StrPiece.plain s => SElem.leaf (ASTReflectionStyle.reflection "") s

/-- The `.Rule.Str` node made of the given pieces. -/
def strNodeOf (ps : List StrPiece) : SNode :=
  SNode.mk (ASTReflectionStyle.reflection ".Rule.Str") (ps.map strPieceElem)

/-- Decoding of one piece as the spec's table states it: the five
escapes map to backslash, double quote, newline, tab and NUL, a plain
piece is unchanged, any other escape has no decoding. -/
def decodePieceSpec : StrPiece → Option String
  | StrPiece.esc c => escCharDecode c
  | StrPiece.plain s => some s

/-- The decoded text of a piece list (meaningful when every piece
decodes). -/
def decodedText (ps : List StrPiece) : String :=
  ps.foldr (fun p s => (decodePieceSpec p).getD "" ++ s) ""

/-!
Helper lemmas shared by the claim theorems below.
-/

/-- Containment in the Bool sense is false for a non-member. -/
theorem contains_false_of_not_mem {l : List String} {a : String} (h : a ∉ l) :
    l.contains a = false := by
  cases hc : l.contains a
  · rfl
  · exact absurd (List.elem_iff.mp hc) h

/-- The error flag of the appeared-id check is the existence of a
missing id. -/
theorem checkAppearedIds_flag (appeared : List (String × CharacterPosition))
    (catalog : List String) :
    (checkAppearedIds appeared catalog).2 =
      appeared.any (fun p => !(catalog.contains p.1)) := by
  induction appeared with
  | nil => rfl
  | cons p rest ih =>
      simp only [checkAppearedIds, List.any_cons]
      cases h : catalog.contains p.1 <;> simp [h, ih]

/-- Propositional form of the error flag. -/
theorem checkAppearedIds_flag_iff (appeared : List (String × CharacterPosition))
    (catalog : List String) :
    (checkAppearedIds appeared catalog).2 = true ↔ ∃ p ∈ appeared, p.1 ∉ catalog := by
  rw [checkAppearedIds_flag, List.any_eq_true]
  constructor
  · rintro ⟨p, hp, hb⟩
    rw [Bool.not_eq_true'] at hb
    refine ⟨p, hp, fun hmem => ?_⟩
    have ht : catalog.contains p.1 = true := List.elem_iff.mpr hmem
    rw [ht] at hb
    cases hb
  · rintro ⟨p, hp, hb⟩
    exact ⟨p, hp, by rw [Bool.not_eq_true', contains_false_of_not_mem hb]⟩

/-- Every missing appeared id is reported by the check. -/
theorem checkAppearedIds_logs_mem (appeared : List (String × CharacterPosition))
    (catalog : List String) (p : String × CharacterPosition) (hp : p ∈ appeared)
    (hmiss : p.1 ∉ catalog) :
    LogEntry.syn (.unknownRuleID p.2 p.1) ∈ (checkAppearedIds appeared catalog).1 := by
  have hc : catalog.contains p.1 = false := contains_false_of_not_mem hmiss
  induction appeared with
  | nil => cases hp
  | cons q rest ih =>
      rcases List.mem_cons.mp hp with h | h
      · subst h
        simp only [checkAppearedIds, hc]
        simp
      · have hrec := ih h
        simp only [checkAppearedIds]
        cases hq : catalog.contains q.1 <;> simp [hq, hrec]

/-- Joined leaf values of a single-leaf node. -/
theorem join_single (st st2 : ASTReflectionStyle) (v : String) :
    joinChildLeafValues (SNode.mk st [SElem.leaf st2 v]) = v := rfl

/-- Successful escape decoding of a piece list whose escapes are all in
the table. -/
theorem toStringValueElems_ok (ps : List StrPiece)
    (h : ∀ p ∈ ps, (decodePieceSpec p).isSome = true) :
    toStringValueElems (ps.map strPieceElem) = ([], some (decodedText ps)) := by
  induction ps with
  | nil => rfl
  | cons p rest ih =>
      have hp := h p (List.mem_cons_self p rest)
      have hrest := ih (fun q hq => h q (List.mem_cons_of_mem _ hq))
      cases p with
      | plain s =>
          simp [toStringValueElems, strPieceElem, SNode.style, hrest, decodedText,
            decodePieceSpec]
      | esc c =>
          obtain ⟨p', hp'⟩ := Option.isSome_iff_exists.mp hp
          simp only [decodePieceSpec] at hp'
          simp [toStringValueElems, strPieceElem, getLeafChildAt, SNode.children, SNode.style,
            hp', hrest, decodedText, decodePieceSpec]

/-- The first unknown escape yields exactly one
UnknownEscapeSequenceCharacter diagnostic and the abort. -/
theorem toStringValueElems_fail (l1 : List StrPiece) (c : String) (l2 : List StrPiece)
    (h1 : ∀ p ∈ l1, (decodePieceSpec p).isSome = true) (hc : escCharDecode c = none) :
    toStringValueElems ((l1 ++ StrPiece.esc c :: l2).map strPieceElem) =
      ([LogEntry.block (.unknownEscapeSequenceCharacter 0)], none) := by
  induction l1 with
  | nil =>
      simp [toStringValueElems, strPieceElem, getLeafChildAt, SNode.children, SNode.style,
        hc, getPosition]
  | cons p rest ih =>
      have hp := h1 p (List.mem_cons_self p rest)
      have hrest := ih (fun q hq => h1 q (List.mem_cons_of_mem _ hq))
      simp only [List.map_append, List.map_cons, strPieceElem] at hrest
      cases p with
      | plain s =>
          simp [toStringValueElems, strPieceElem, SNode.style, hrest]
      | esc c2 =>
          obtain ⟨p', hp'⟩ := Option.isSome_iff_exists.mp hp
          simp only [decodePieceSpec] at hp'
          simp [toStringValueElems, strPieceElem, getLeafChildAt, SNode.children, SNode.style,
            hp', hrest]

/-- The accumulator-generalised behaviour of the argument-id loop. -/
theorem toDefineCmdArgIdsGo_spec (elems : List SElem) (logs : List LogEntry)
    (args : List String) :
    toDefineCmdArgIdsGo elems logs args =
      (logs ++ dupArgLogs args (argIdValues elems), args ++ argIdValues elems) := by
  induction elems generalizing logs args with
  | nil => simp [toDefineCmdArgIdsGo, argIdValues, dupArgLogs]
  | cons e rest ih =>
      cases e with
      | node n =>
          by_cases hn : n.style = ASTReflectionStyle.reflection ".Rule.ArgID"
          · by_cases hm : joinChildLeafValues n ∈ args <;>
              simp [toDefineCmdArgIdsGo, hn, hm, ih, argIdValues, dupArgLogs, getPosition,
                List.append_assoc]
          · simp [toDefineCmdArgIdsGo, hn, ih, argIdValues]
      | leaf st v => simp [toDefineCmdArgIdsGo, ih, argIdValues]

/-- Severity of a DuplicatedArgumentID entry, per `get_log`. -/
theorem dupArgEntryKind (v : String) :
    (LogEntry.block (BlockParseError.duplicatedArgumentID 0 v)).kind =
      ConsoleLogKind.error := rfl

/-- Every diagnostic of the argument-id loop carries Error severity. -/
theorem dupArgLogs_all_error (seen vs : List String) :
    (dupArgLogs seen vs).all (fun e => e.kind == ConsoleLogKind.error) = true := by
  induction vs generalizing seen with
  | nil => rfl
  | cons v rest ih =>
      cases h : seen.contains v <;>
        simp [dupArgLogs, h, ih, dupArgEntryKind]

/-!
Claim theorems.
-/

/-- C1: identifier resolution (`to_rule_id`) follows the table. A
1-component chain `[rule]` yields `<current-file-alias>.<current-block>.<rule>`;
a 2-component chain `[alias, rule]` whose alias is in the block-alias
table yields the mapped `<file>.<block>` followed by `.<rule>` — in
particular after `use X as Y` (whose `to_block_cmd` handling records
`Y ↦ <file>.<block>`) a reference `Y.R` resolves to that `<file>.<block>.R`;
a 2-component chain with an absent alias appends a BlockAliasNotFound
hard error (Error severity) and aborts (`none`); a 3-component chain
yields `<file>.<block>.<rule>`; any other chain length aborts with an
internal error. -/
theorem rule_id_resolution (pos : CharacterPosition) (m : List (String × String))
    (f b r : String) :
    (toRuleId pos [r] m f b).2 = some (f ++ "." ++ b ++ "." ++ r) ∧
    (∀ a v, lookupAssoc m a = some v →
      (toRuleId pos [a, r] m f b).2 = some (v ++ "." ++ r)) ∧
    (∀ y fu bu,
      (toRuleId pos [y, r] (useCmdInsertAlias m (BlockCommand.use 0 fu bu y)) f b).2 =
        some (fu ++ "." ++ bu ++ "." ++ r)) ∧
    (∀ a, lookupAssoc m a = none →
      toRuleId pos [a, r] m f b = ([LogEntry.block (.blockAliasNotFound pos a)], none)) ∧
    (LogEntry.block (BlockParseError.blockAliasNotFound pos r)).kind = ConsoleLogKind.error ∧
    (∀ f2 b2, (toRuleId pos [f2, b2, r] m f b).2 = some (f2 ++ "." ++ b2 ++ "." ++ r)) ∧
    (∀ ts : List String, ts.length = 0 ∨ 4 ≤ ts.length →
      toRuleId pos ts m f b =
        ([LogEntry.block (.internalError "invalid id expression")], none)) := by
  refine ⟨?_, ?_, ?_, ?_, rfl, ?_, ?_⟩
  · simp [toRuleId]
  · intro a v h
    simp only [toRuleId, h]
    split <;> simp
  · intro y fu bu
    have h : lookupAssoc (useCmdInsertAlias m (BlockCommand.use 0 fu bu y)) y =
        some (fu ++ "." ++ bu) := by
      simp [useCmdInsertAlias, insertAssoc, lookupAssoc]
    simp only [toRuleId, h]
    split <;> simp [String.append_assoc]
  · intro a h
    simp [toRuleId, h]
  · intro f2 b2
    simp only [toRuleId]
    split <;> simp
  · intro ts h
    match ts, h with
    | [], _ => simp [toRuleId]
    | [a], h => simp at h
    | [a, b2], h => simp at h
    | [a, b2, c], h => simp at h
    | a :: b2 :: c :: d :: rest, _ => simp [toRuleId]

/-- Witness for C1 at concrete inputs. -/
theorem rule_id_resolution_witness :
    (toRuleId 0 ["X", "R"] [("X", "f2.C")] "f" "B").2 = some "f2.C.R" ∧
    toRuleId 0 ["X", "R"] [] "f" "B" = ([LogEntry.block (.blockAliasNotFound 0 "X")], none) ∧
    toRuleId 0 [] [] "f" "B" =
      ([LogEntry.block (.internalError "invalid id expression")], none) :=
  ⟨(rule_id_resolution 0 [("X", "f2.C")] "f" "B" "R").2.1 "X" "f2.C" rfl,
   (rule_id_resolution 0 [] "f" "B" "R").2.2.2.1 "X" rfl,
   (rule_id_resolution 0 [] "f" "B" "R").2.2.2.2.2.2 [] (Or.inl rfl)⟩

/-- C2 counterexample: the claim says `{a,b}` with `a ≤ b` and
`(a,b) ≠ (0,0)` lowers to loop count `(a,b)`, but on `{0,1}` the
translator rejects the explicit zero minimum with InvalidLoopCount
instead of producing `(0,1)`. -/
theorem loop_zero_min_counterexample :
    loopCountOfLoopNode (loopNodeOfSlots (numSlot "0") (numSlot "1")) =
      ([LogEntry.block (.invalidLoopCount 0)], none) ∧
    loopCountOfLoopNode (loopNodeOfSlots (numSlot "0") (numSlot "1")) ≠
      ([], some ⟨0, Infinitable.normal 1⟩) :=
  ⟨rfl, by decide⟩

/-- C2 as amended: an absent qualifier gives (1,1); `{a,b}` with a ≥ 1
gives (a,b); `{,m}` gives (0,m) for every m including 0; `{n,}` with
n ≥ 1 gives (n,∞); `{,}` gives (0,∞); a brace range whose min field is
an explicit 0 (so `{0,0}` but also `{0,m}`), or whose min or max field
fails to parse as a number, is rejected with an InvalidLoopCount hard
error of Error severity. (The bootstrap `LoopRange` production always
contains a comma, so a `{n}` form never reaches the translator.) -/
theorem loop_lowering_amended :
    (∀ n : SNode, findFirstChildNode n [".Rule.Loop"] = none →
      loopCountOf n = ([], some getSingleLoop)) ∧
    (∀ sa sb a bn, parseNatDigits sa = some a → 1 ≤ a → parseNatDigits sb = some bn →
      loopCountOfLoopNode (loopNodeOfSlots (numSlot sa) (numSlot sb)) =
        ([], some ⟨a, Infinitable.normal bn⟩)) ∧
    (∀ sb bn, parseNatDigits sb = some bn →
      loopCountOfLoopNode (loopNodeOfSlots emptySlot (numSlot sb)) =
        ([], some ⟨0, Infinitable.normal bn⟩)) ∧
    (∀ sa a, parseNatDigits sa = some a → 1 ≤ a →
      loopCountOfLoopNode (loopNodeOfSlots (numSlot sa) emptySlot) =
        ([], some ⟨a, Infinitable.infinite⟩)) ∧
    (loopCountOfLoopNode (loopNodeOfSlots emptySlot emptySlot) =
      ([], some ⟨0, Infinitable.infinite⟩)) ∧
    (∀ sa maxSlot, parseNatDigits sa = some 0 →
      loopCountOfLoopNode (loopNodeOfSlots (numSlot sa) maxSlot) =
        ([LogEntry.block (.invalidLoopCount 0)], none)) ∧
    (∀ sa maxSlot, parseNatDigits sa = none →
      loopCountOfLoopNode (loopNodeOfSlots (numSlot sa) maxSlot) =
        ([LogEntry.block (.invalidLoopCount 0)], none)) ∧
    (∀ sa sb a, parseNatDigits sa = some a → 1 ≤ a → parseNatDigits sb = none →
      loopCountOfLoopNode (loopNodeOfSlots (numSlot sa) (numSlot sb)) =
        ([LogEntry.block (.invalidLoopCount 0)], none)) ∧
    (LogEntry.block (BlockParseError.invalidLoopCount 0)).kind = ConsoleLogKind.error := by
  refine ⟨?_, ?_, ?_, ?_, rfl, ?_, ?_, ?_, rfl⟩
  · intro n hn
    simp [loopCountOf, hn]
  · intro sa sb a bn ha h1 hb
    have ha0 : ¬(a = 0) := by omega
    simp [loopCountOfLoopNode, loopNodeOfSlots, numSlot, getChildAt, SNode.children,
      join_single, ha, hb, loopRangeMax, ha0]
  · intro sb bn hb
    simp [loopCountOfLoopNode, loopNodeOfSlots, numSlot, emptySlot, getChildAt,
      SNode.children, join_single, hb, loopRangeMax]
  · intro sa a ha h1
    have ha0 : ¬(a = 0) := by omega
    simp [loopCountOfLoopNode, loopNodeOfSlots, numSlot, emptySlot, getChildAt,
      SNode.children, join_single, ha, loopRangeMax, ha0]
  · intro sa maxSlot ha
    simp [loopCountOfLoopNode, loopNodeOfSlots, numSlot, getChildAt, SNode.children,
      join_single, ha]
  · intro sa maxSlot ha
    simp [loopCountOfLoopNode, loopNodeOfSlots, numSlot, getChildAt, SNode.children,
      join_single, ha]
  · intro sa sb a ha h1 hb
    have ha0 : ¬(a = 0) := by omega
    simp [loopCountOfLoopNode, loopNodeOfSlots, numSlot, getChildAt, SNode.children,
      join_single, ha, hb, loopRangeMax, ha0]

/-- Witness for the amended C2 at concrete inputs. -/
theorem loop_lowering_amended_witness :
    loopCountOfLoopNode (loopNodeOfSlots (numSlot "2") (numSlot "3")) =
      ([], some ⟨2, Infinitable.normal 3⟩) ∧
    loopCountOfLoopNode (loopNodeOfSlots (numSlot "4") emptySlot) =
      ([], some ⟨4, Infinitable.infinite⟩) ∧
    loopCountOfLoopNode (loopNodeOfSlots emptySlot (numSlot "0")) =
      ([], some ⟨0, Infinitable.normal 0⟩) :=
  ⟨loop_lowering_amended.2.1 "2" "3" 2 3 rfl (by decide) rfl,
   loop_lowering_amended.2.2.2.1 "4" 4 rfl (by decide),
   loop_lowering_amended.2.2.1 "0" 0 rfl⟩

/-- C3: with the catalog assembled (the key set of the merged rule map)
and a start id set, the id check fails exactly when some identifier of
the shared appeared map is absent from the catalog; every missing
identifier is reported with an unknown-rule-id entry before failure is
returned, and the check succeeds exactly when every appeared id is in
the catalog. -/
theorem appeared_ids_check (appeared : List (String × CharacterPosition))
    (catalog : List String) :
    ((getRuleMapIdCheck appeared catalog).2 = none ↔ ∃ p ∈ appeared, p.1 ∉ catalog) ∧
    (∀ p ∈ appeared, p.1 ∉ catalog →
      LogEntry.syn (.unknownRuleID p.2 p.1) ∈ (getRuleMapIdCheck appeared catalog).1) ∧
    ((getRuleMapIdCheck appeared catalog).2 = some catalog ↔
      ∀ p ∈ appeared, p.1 ∈ catalog) := by
  have hnone : (getRuleMapIdCheck appeared catalog).2 = none ↔
      (checkAppearedIds appeared catalog).2 = true := by
    simp only [getRuleMapIdCheck]
    cases h : (checkAppearedIds appeared catalog).2 <;> simp [h]
  have hsome : (getRuleMapIdCheck appeared catalog).2 = some catalog ↔
      (checkAppearedIds appeared catalog).2 = false := by
    simp only [getRuleMapIdCheck]
    cases h : (checkAppearedIds appeared catalog).2 <;> simp [h]
  refine ⟨?_, ?_, ?_⟩
  · rw [hnone, checkAppearedIds_flag_iff]
  · intro p hp hmiss
    simpa [getRuleMapIdCheck] using checkAppearedIds_logs_mem appeared catalog p hp hmiss
  · rw [hsome]
    constructor
    · intro h p hp
      by_contra hmem
      have := (checkAppearedIds_flag_iff appeared catalog).mpr ⟨p, hp, hmem⟩
      rw [h] at this
      cases this
    · intro h
      cases hflag : (checkAppearedIds appeared catalog).2
      · rfl
      · obtain ⟨p, hp, hb⟩ := (checkAppearedIds_flag_iff appeared catalog).mp hflag
        exact absurd (h p hp) hb

/-- Witness for C3 at concrete inputs. -/
theorem appeared_ids_check_witness :
    (getRuleMapIdCheck [("x", 3)] []).2 = none ∧
    LogEntry.syn (.unknownRuleID 3 "x") ∈ (getRuleMapIdCheck [("x", 3)] []).1 ∧
    (getRuleMapIdCheck [("y", 4)] ["y"]).2 = some ["y"] :=
  ⟨(appeared_ids_check [("x", 3)] []).1.mpr ⟨("x", 3), by simp⟩,
   (appeared_ids_check [("x", 3)] []).2.1 ("x", 3) (by simp) (by simp),
   (appeared_ids_check [("y", 4)] ["y"]).2.2.mpr (by simp)⟩

/-- C4 (code bug): on the PureChoice `"a" : "b" , "c"` — alternatives
separated by both `:` and `,` at the same nesting level —
`to_rule_choice_elem` emits NO diagnostic at all and succeeds, lowering
all three alternatives into one Choice group; the spec (and the
repository's other implementation, blockparser.rs `get_choice_vec`)
require exactly one mixed-separator hard error. -/
theorem mixed_separator_no_error :
    (toRuleChoiceElem 20 ctx0 [] mixedPureChoiceNode []).1 = [] ∧
    ((toRuleChoiceElem 20 ctx0 [] mixedPureChoiceNode []).2.2).isSome = true ∧
    innerGroupKind (toRuleChoiceElem 20 ctx0 [] mixedPureChoiceNode []).2.2 =
      some RuleGroupKind.choice ∧
    innerGroupSize (toRuleChoiceElem 20 ctx0 [] mixedPureChoiceNode []).2.2 = some 3 :=
  ⟨rfl, rfl, rfl, rfl⟩

/-- C5: string-escape decoding maps `\\`, `\"`, `\n`, `\t`, `\z` by the
fixed table, leaves non-escaped pieces unchanged, and on any other
escaped character appends exactly one UnknownEscapeSequenceCharacter
hard error (Error severity) and aborts. -/
theorem string_escape_decoding (ps : List StrPiece) :
    escCharDecode "\\" = some "\\" ∧
    escCharDecode "\"" = some "\"" ∧
    escCharDecode "n" = some "\n" ∧
    escCharDecode "t" = some "\t" ∧
    escCharDecode "z" = some "\x00" ∧
    (∀ c, c ∉ (["\\", "\"", "n", "t", "z"] : List String) → escCharDecode c = none) ∧
    ((∀ p ∈ ps, (decodePieceSpec p).isSome = true) →
      toStringValue (strNodeOf ps) = ([], some (decodedText ps))) ∧
    (∀ l1 c l2, ps = l1 ++ StrPiece.esc c :: l2 →
      (∀ p ∈ l1, (decodePieceSpec p).isSome = true) → escCharDecode c = none →
      toStringValue (strNodeOf ps) =
        ([LogEntry.block (.unknownEscapeSequenceCharacter 0)], none)) ∧
    (LogEntry.block (BlockParseError.unknownEscapeSequenceCharacter 0)).kind =
      ConsoleLogKind.error := by
  refine ⟨rfl, rfl, rfl, rfl, rfl, ?_, ?_, ?_, rfl⟩
  · intro c hc
    unfold escCharDecode
    split <;> simp_all
  · intro h
    simpa [toStringValue, strNodeOf, SNode.children] using toStringValueElems_ok ps h
  · intro l1 c l2 hps h1 hc
    subst hps
    simpa [toStringValue, strNodeOf, SNode.children] using
      toStringValueElems_fail l1 c l2 h1 hc

/-- Witness for C5 at concrete inputs. -/
theorem string_escape_decoding_witness :
    toStringValue (strNodeOf [StrPiece.plain "a", StrPiece.esc "n"]) = ([], some "a\n") ∧
    toStringValue (strNodeOf [StrPiece.esc "q"]) =
      ([LogEntry.block (.unknownEscapeSequenceCharacter 0)], none) ∧
    escCharDecode "q" = none :=
  ⟨(string_escape_decoding [StrPiece.plain "a", StrPiece.esc "n"]).2.2.2.2.2.2.1
      (by decide),
   (string_escape_decoding [StrPiece.esc "q"]).2.2.2.2.2.2.2.1 [] "q" [] rfl
      (fun p hp => absurd hp (List.not_mem_nil p)) rfl,
   (string_escape_decoding []).2.2.2.2.2.1 "q" (by decide)⟩

/-- C6 (code bug): for `+ use B as X,` in a file whose alias is `f`,
`to_use_cmd` takes the chain's first component as the FILE alias even
though the chain has one component, so the recorded alias-table entry is
`X ↦ B.B` instead of the claimed `X ↦ f.B`; without `as` the same chain
correctly records the current file (`X` absent, `B ↦ f.B`). -/
theorem use_cmd_as_alias_eval :
    toUseCmd "f" "B" (some "X") = ([], some (BlockCommand.use 0 "B" "B" "X")) ∧
    useCmdAliasEntry (BlockCommand.use 0 "B" "B" "X") = some ("X", "B.B") ∧
    ("B.B" : String) ≠ "f.B" ∧
    toUseCmd "f" "B" none = ([], some (BlockCommand.use 0 "f" "B" "B")) :=
  ⟨rfl, rfl, by decide, rfl⟩

/-- C7 (code bug): a `SeqElem` carrying a `.Rule.RandomOrder` decoration
lowers to exactly the same rule element as the one without it —
`to_seq_elem` never inspects RandomOrder children, the group kind stays
Sequence (never RandomOrder) and no occurrence bounds are recorded. -/
theorem random_order_ignored :
    toSeqElem 20 ctx0 [] (strSeqNodeRandom "x") [] =
      toSeqElem 20 ctx0 [] (strSeqNode "x") [] ∧
    (toSeqElem 20 ctx0 [] (strSeqNodeRandom "x") []).1 = [] ∧
    elemGroupKind (toSeqElem 20 ctx0 [] (strSeqNodeRandom "x") []).2.2 =
      some RuleGroupKind.sequence ∧
    RuleGroupKind.sequence ≠ RuleGroupKind.randomOrder :=
  ⟨rfl, rfl, rfl, by decide⟩

/-- C8 counterexample: the claim says the DuplicatedArgumentID
diagnostic has Warning severity, but `get_log` assigns it Error
severity (the repeated id is still appended and the function does not
abort). -/
theorem dup_arg_severity_counterexample :
    toDefineCmdArgIds [argIdNode "a", argIdNode "a"] =
      ([LogEntry.block (.duplicatedArgumentID 0 "a")], ["a", "a"]) ∧
    (LogEntry.block (BlockParseError.duplicatedArgumentID 0 "a")).kind =
      ConsoleLogKind.error ∧
    (LogEntry.block (BlockParseError.duplicatedArgumentID 0 "a")).kind ≠
      ConsoleLogKind.warning :=
  ⟨rfl, rfl, by decide⟩

/-- C8 as amended: for every Define command parameter list, every
repeated id produces one DuplicatedArgumentID diagnostic — logged with
Error severity by `get_log`, not Warning — the repeated id is still
appended, and the collection never aborts (it returns the full id list
in order with duplicates kept). -/
theorem dup_arg_ids_amended (elems : List SElem) :
    toDefineCmdArgIds elems = (dupArgLogs [] (argIdValues elems), argIdValues elems) ∧
    (toDefineCmdArgIds elems).1.all (fun e => e.kind == ConsoleLogKind.error) = true := by
  have h := toDefineCmdArgIdsGo_spec elems [] []
  simp only [toDefineCmdArgIds]
  constructor
  · simpa using h
  · rw [show (toDefineCmdArgIdsGo elems [] []).1 = dupArgLogs [] (argIdValues elems) by
      rw [h]; simp]
    exact dupArgLogs_all_error [] (argIdValues elems)

/-- C9: a resolved identifier whose rule name starts with `_` and whose
defining block (as the code compares it: the id's block component,
which for an alias chain is the mapped `<file>.<block>` string) differs
from the referencing block appends an AttemptToAccessPrivateItem
diagnostic of Warning severity and still resolves successfully;
resolution can only fail for a missing alias or a bad chain length,
never for a privacy violation. (Block names never contain `.` while the
mapped value always does, so the 2-component hypothesis covers every
case where the defining block differs.) -/
theorem privacy_warning_resolution (pos : CharacterPosition) (m : List (String × String))
    (f b : String) :
    (∀ a r v, lookupAssoc m a = some v → startsWithUnderscore r = true → b ≠ v →
      toRuleId pos [a, r] m f b =
        ([LogEntry.block (.attemptToAccessPrivateItem pos (v ++ "." ++ r))],
         some (v ++ "." ++ r))) ∧
    (∀ f2 b2 r, startsWithUnderscore r = true → b ≠ b2 →
      toRuleId pos [f2, b2, r] m f b =
        ([LogEntry.block (.attemptToAccessPrivateItem pos (f2 ++ "." ++ b2 ++ "." ++ r))],
         some (f2 ++ "." ++ b2 ++ "." ++ r))) ∧
    (∀ id, (LogEntry.block (BlockParseError.attemptToAccessPrivateItem pos id)).kind =
      ConsoleLogKind.warning) ∧
    (∀ ts : List String, (toRuleId pos ts m f b).2 = none →
      (∃ a r2, ts = [a, r2] ∧ lookupAssoc m a = none) ∨ ts.length = 0 ∨ 4 ≤ ts.length) := by
  refine ⟨?_, ?_, fun id => rfl, ?_⟩
  · intro a r v hl hu hne
    have hb : (b != v) = true := bne_iff_ne.mpr hne
    simp [toRuleId, hl, hu, hb]
  · intro f2 b2 r hu hne
    have hb : (b != b2) = true := bne_iff_ne.mpr hne
    simp [toRuleId, hu, hb]
  · intro ts h
    match ts, h with
    | [], _ => right; left; rfl
    | [a], h =>
        exfalso
        revert h
        simp only [toRuleId]
        split <;> simp
    | [a, r2], h =>
        cases hl : lookupAssoc m a with
        | some v =>
            exfalso
            revert h
            simp only [toRuleId, hl]
            split <;> simp
        | none => exact Or.inl ⟨a, r2, rfl, hl⟩
    | [a, b2, c], h =>
        exfalso
        revert h
        simp only [toRuleId]
        split <;> simp
    | a :: b2 :: c :: d :: rest, _ =>
        right; right; simp

/-- Witness for C9 at concrete inputs. -/
theorem privacy_warning_resolution_witness :
    toRuleId 0 ["X", "_r"] [("X", "f2.C")] "f" "B" =
      ([LogEntry.block (.attemptToAccessPrivateItem 0 "f2.C._r")], some "f2.C._r") ∧
    toRuleId 0 ["g", "C", "_s"] [] "f" "B" =
      ([LogEntry.block (.attemptToAccessPrivateItem 0 "g.C._s")], some "g.C._s") :=
  ⟨(privacy_warning_resolution 0 [("X", "f2.C")] "f" "B").1 "X" "_r" "f2.C" rfl rfl
      (by decide),
   (privacy_warning_resolution 0 [] "f" "B").2.1 "g" "C" "_s" rfl (by decide)⟩

/-- C10: a NamingRuleViolation entry — of Warning severity — is emitted
for a block or rule name exactly when `is_pascal_case` fails; the test
accepts any name whose first character is uppercase, accepts a name
whose first character is `_` and whose second is uppercase (so `_Foo`
produces no warning), accepts nothing else, and rejects the empty name
and a lone `_`. -/
theorem pascal_case_naming (pos : CharacterPosition) (c d : Char) (cs : List Char) :
    (∀ name : String, namingCheckLogs pos name =
      if isPascalCase name then [] else [LogEntry.block (.namingRuleViolation pos name)]) ∧
    (∀ name : String, (LogEntry.block (BlockParseError.namingRuleViolation pos name)).kind =
      ConsoleLogKind.warning) ∧
    (c.isUpper = true → isPascalCase (String.mk (c :: cs)) = true) ∧
    (d.isUpper = true → isPascalCase (String.mk ('_' :: d :: cs)) = true) ∧
    (isPascalCase (String.mk (c :: cs)) = true →
      c.isUpper = true ∨ (c = '_' ∧ ∃ d2 ds, cs = d2 :: ds ∧ d2.isUpper = true)) ∧
    isPascalCase "" = false ∧
    isPascalCase "_" = false ∧
    isPascalCase "_Foo" = true ∧
    namingCheckLogs pos "_Foo" = [] := by
  refine ⟨?_, fun name => rfl, ?_, ?_, ?_, rfl, rfl, rfl, rfl⟩
  · intro name
    unfold namingCheckLogs
    cases h : isPascalCase name <;> simp [h]
  · intro h
    have hne : c ≠ '_' := by
      intro e
      subst e
      simp [Char.isUpper] at h
    simp [isPascalCase, hne, h]
  · intro h
    simp [isPascalCase, h]
  · intro h
    by_cases hne : c = '_'
    · subst hne
      right
      refine ⟨rfl, ?_⟩
      cases cs with
      | nil => simp [isPascalCase] at h
      | cons d2 ds =>
          refine ⟨d2, ds, rfl, ?_⟩
          simpa [isPascalCase] using h
    · left
      simpa [isPascalCase, hne] using h

/-- Witness for C10 at concrete inputs. -/
theorem pascal_case_naming_witness :
    isPascalCase (String.mk ('A' :: ['b'])) = true ∧
    isPascalCase (String.mk ('_' :: 'F' :: ['o'])) = true ∧
    ('_'.isUpper = true ∨ ('_' = '_' ∧ ∃ d2 ds, ('F' :: ['o'] : List Char) = d2 :: ds ∧
      d2.isUpper = true)) :=
  ⟨(pascal_case_naming 0 'A' 'F' ['b']).2.2.1 (by decide),
   (pascal_case_naming 0 'A' 'F' ['o']).2.2.2.1 (by decide),
   (pascal_case_naming 0 '_' 'F' ('F' :: ['o'])).2.2.2.2.1 (by decide)⟩
